import Mathlib

/- Shallow embedding of the agente-clima-v10 core:
   src/app/config.py, src/app/portfolio.py, src/app/bot.py,
   src/app/market_scorer.py.

   Conventions of the embedding:
   - Python float arithmetic is modeled by exact rational arithmetic (ℚ).
   - Python dicts keyed by condition_id are modeled as association lists
     (List (String × α)) with dict semantics: lookup finds the first match,
     assignment overwrites in place or appends at the end, deletion removes
     the key.  The bot only ever creates one entry per key.
   - Wall-clock timestamp strings (entry_time, close_time, session_start),
     the capital_history list and the network-only fields slug /
     yes_token_id of a position are omitted: no claim under verification
     depends on them.  The formatted Spanish resolution log strings are
     abstracted to plain strings.
   - Fallible operations (Python exceptions, e.g. ZeroDivisionError in
     open_position) are modeled with Option.
   - Environment-configurable constants from config.py are embedded at
     their documented default values; where a claim quantifies over the
     configuration (take profit level, the position-sizing band) the
     corresponding function takes the configuration as an argument. -/

-- ── config.py (defaults) ─────────────────────────────────────────────────────

def MAX_POSITIONS : Nat := 20

def TAKE_PROFIT_YES : ℚ := 15/100

def MAX_REGION_EXPOSURE : ℚ := 1/4

def SCORE_VOLUME_HIGH : ℚ := 500

def SCORE_VOLUME_MID : ℚ := 300

def SCORE_VOLUME_LOW : ℚ := 200

def REGION_MAP : List (String × String) :=
  [("chicago", "midwest"), ("denver", "midwest"),
   ("dallas", "south"), ("houston", "south"),
   ("atlanta", "south"), ("miami", "south"), ("phoenix", "south"),
   ("boston", "northeast"), ("nyc", "northeast"),
   ("seattle", "pacific"), ("los-angeles", "pacific"),
   ("london", "europe"), ("paris", "europe"), ("ankara", "europe"),
   ("wellington", "southern"), ("buenos-aires", "southern"),
   ("sao-paulo", "southern"),
   ("seoul", "asia"), ("toronto", "north_america")]

def CITY_UTC_OFFSET : List (String × Int) :=
  [("chicago", -6), ("dallas", -6), ("atlanta", -5), ("miami", -5),
   ("nyc", -5), ("boston", -5), ("toronto", -5), ("seattle", -8),
   ("los-angeles", -8), ("houston", -6), ("phoenix", -7), ("denver", -7),
   ("london", 0), ("paris", 1), ("ankara", 3), ("seoul", 9),
   ("wellington", 13), ("sao-paulo", -3), ("buenos-aires", -3)]

-- ── Association-list primitives (Python dict semantics) ──────────────────────

/-- Dict lookup: first entry with the given key. -/
def alookup {α : Type} : List (String × α) → String → Option α
  | [], _ => none
  | e :: l, k => if e.1 = k then some e.2 else alookup l k

/-- Dict assignment `d[k] = v`: overwrite in place, or append at the end. -/
def upsert {α : Type} : List (String × α) → String → α → List (String × α)
  | [], k, v => [(k, v)]
  | e :: l, k, v => if e.1 = k then (k, v) :: l else e :: upsert l k v

/-- Dict deletion `del d[k]`. -/
def eraseKey {α : Type} : List (String × α) → String → List (String × α)
  | [], _ => []
  | e :: l, k => if e.1 = k then eraseKey l k else e :: eraseKey l k

-- ── portfolio.py data model ──────────────────────────────────────────────────

/-- The status strings used for a position in portfolio.py / bot.py. -/
inductive PStatus
  | OPEN
  | WON
  | LOST
  | TAKE_PROFIT
  | LIQUIDATED
  | STOPPED
deriving DecidableEq, Repr

/-- One position dict as built by AutoPortfolio.open_position. -/
structure Position where
  condition_id : String
  question : String
  city : String
  entry_yes : ℚ
  current_yes : ℚ
  allocated : ℚ
  tokens : ℚ
  take_profit : ℚ
  status : PStatus
  pnl : ℚ
  resolution : String
deriving DecidableEq, Repr

/-- An opportunity dict as produced by discovery and enriched in _cycle. -/
structure Opportunity where
  condition_id : String
  question : String
  city : String
  volume : ℚ
  yes_price : ℚ
  no_price : ℚ
deriving DecidableEq, Repr

/-- The mutable state of AutoPortfolio (capital fields and both books). -/
structure AutoPortfolio where
  capital_inicial : ℚ
  capital_total : ℚ
  capital_disponible : ℚ
  positions : List (String × Position)
  closed_positions : List Position
deriving DecidableEq, Repr

/-- AutoPortfolio.__init__. -/
def AutoPortfolio.init (initial_capital : ℚ) : AutoPortfolio :=
  { capital_inicial := initial_capital
    capital_total := initial_capital
    capital_disponible := initial_capital
    positions := []
    closed_positions := [] }

/-- AutoPortfolio.can_open_position. -/
def AutoPortfolio.can_open_position (s : AutoPortfolio) : Bool :=
  decide (s.positions.length < MAX_POSITIONS) &&
    decide ((1/2 : ℚ) ≤ s.capital_disponible)

/-- AutoPortfolio.open_position.  The Python method always returns True;
    the only way it can fail is the unguarded division amount / yes_price,
    which raises ZeroDivisionError when yes_price = 0 — modeled as none. -/
def AutoPortfolio.open_position (s : AutoPortfolio) (opp : Opportunity)
    (amount : ℚ) : Option AutoPortfolio :=
  if opp.yes_price = 0 then none
  else
    let tokens := amount / opp.yes_price
    let pos : Position :=
      { condition_id := opp.condition_id
        question := opp.question
        city := opp.city
        entry_yes := opp.yes_price
        current_yes := opp.yes_price
        allocated := amount
        tokens := tokens
        take_profit := TAKE_PROFIT_YES
        status := .OPEN
        pnl := 0
        resolution := "" }
    some { s with
      positions := upsert s.positions opp.condition_id pos
      capital_disponible := s.capital_disponible - amount }

/-- AutoPortfolio._close_position (leading underscore dropped). -/
def AutoPortfolio.close_position (s : AutoPortfolio) (cid : String)
    (status : PStatus) (pnl : ℚ) (resolution : String) : AutoPortfolio :=
  match alookup s.positions cid with
  | none => s
  | some pos =>
    let closed_pos : Position :=
      { pos with status := status, pnl := pnl, resolution := resolution }
    { s with
      positions := eraseKey s.positions cid
      capital_disponible := s.capital_disponible + (pos.allocated + pnl)
      capital_total := s.capital_total + pnl
      closed_positions := s.closed_positions ++ [closed_pos] }

/-- The exit decision taken for one position inside
    AutoPortfolio.apply_price_updates, in source order: WON (yes ≥ 0.99),
    then LOST (no ≥ 0.99), then TAKE_PROFIT (yes ≥ tp), else keep open.
    tp is the configured TAKE_PROFIT_YES value (the code reads the module
    constant). -/
def exitDecision (tp : ℚ) (pos : Position) (yes_price no_price : ℚ) :
    Option (PStatus × ℚ) :=
  if (99/100 : ℚ) ≤ yes_price then
    some (.WON, pos.tokens * yes_price - pos.allocated)
  else if (99/100 : ℚ) ≤ no_price then
    some (.LOST, -pos.allocated)
  else if tp ≤ yes_price then
    some (.TAKE_PROFIT, pos.tokens * yes_price - pos.allocated)
  else none

/-- Update current_yes of the entry with the given key
    (pos = positions[cid]; pos[current_yes] = v). -/
def setCurrentYes : List (String × Position) → String → ℚ →
    List (String × Position)
  | [], _, _ => []
  | e :: l, k, v =>
    (if e.1 = k then (e.1, { e.2 with current_yes := v }) else e)
      :: setCurrentYes l k v

/-- First loop of AutoPortfolio.apply_price_updates: walk the price map,
    update current_yes of every open position found, and collect the
    to_close list (cid, status, pnl) in price-map order. -/
def applyLoop (tp : ℚ) : List (String × Position) → List (String × ℚ × ℚ) →
    List (String × Position) × List (String × PStatus × ℚ)
  | l, [] => (l, [])
  | l, (cid, y, n) :: rest =>
    match alookup l cid with
    | none => applyLoop tp l rest
    | some pos =>
      let l' := setCurrentYes l cid y
      let res := applyLoop tp l' rest
      match exitDecision tp { pos with current_yes := y } y n with
      | some (st, pnl) => (res.1, (cid, st, pnl) :: res.2)
      | none => (res.1, res.2)

/-- AutoPortfolio.apply_price_updates: phase one walks the price map,
    phase two closes the collected positions in order. -/
def AutoPortfolio.apply_price_updates (s : AutoPortfolio) (tp : ℚ)
    (price_map : List (String × ℚ × ℚ)) : AutoPortfolio :=
  let r := applyLoop tp s.positions price_map
  r.2.foldl (fun st e => st.close_position e.1 e.2.1 e.2.2 "")
    { s with positions := r.1 }

-- ── portfolio.py region exposure ─────────────────────────────────────────────

/-- REGION_MAP.get(city, "other"). -/
def regionOf (city : String) : String := (alookup REGION_MAP city).getD "other"

/-- AutoPortfolio.get_region_allocated: capital allocated to open positions
    whose city maps to the given region. -/
def AutoPortfolio.get_region_allocated (s : AutoPortfolio) (region : String) :
    ℚ :=
  (((s.positions.map Prod.snd).filter
      (fun pos => regionOf pos.city == region)).map Position.allocated).sum

/-- AutoPortfolio.region_has_capacity: the currently allocated capital of
    the region of the given city is strictly below
    capital_total * MAX_REGION_EXPOSURE. -/
def AutoPortfolio.region_has_capacity (s : AutoPortfolio) (city : String) :
    Bool :=
  decide (s.get_region_allocated (regionOf city)
    < s.capital_total * MAX_REGION_EXPOSURE)

/-- The acceptance test one verified opportunity must pass in step 5 of
    BotRunner._cycle before open_position is called: can_open_position,
    region_has_capacity for its city, and sized amount ≥ 0.50. -/
def AutoPortfolio.execGate (s : AutoPortfolio) (city : String) (amount : ℚ) :
    Bool :=
  s.can_open_position && s.region_has_capacity city &&
    decide ((1/2 : ℚ) ≤ amount)

-- ── bot.py position sizing ───────────────────────────────────────────────────

/-- The four config.py constants read by calc_position_size; defaults
    MIN_YES_PRICE = 0.06, MAX_YES_PRICE = 0.12, POSITION_SIZE_MIN = 0.010,
    POSITION_SIZE_MAX = 0.020. -/
structure SizingConfig where
  MIN_YES_PRICE : ℚ
  MAX_YES_PRICE : ℚ
  POSITION_SIZE_MIN : ℚ
  POSITION_SIZE_MAX : ℚ
deriving DecidableEq, Repr

def defaultSizing : SizingConfig :=
  { MIN_YES_PRICE := 6/100
    MAX_YES_PRICE := 12/100
    POSITION_SIZE_MIN := 1/100
    POSITION_SIZE_MAX := 2/100 }

/-- bot.calc_position_size. -/
def calc_position_size (cfg : SizingConfig) (capital_disponible yes_price : ℚ) :
    ℚ :=
  let price_range := cfg.MAX_YES_PRICE - cfg.MIN_YES_PRICE
  if price_range ≤ 0 then capital_disponible * cfg.POSITION_SIZE_MAX
  else
    let t := (cfg.MAX_YES_PRICE - yes_price) / price_range
    let tc := max 0 (min 1 t)
    capital_disponible *
      (cfg.POSITION_SIZE_MIN + tc * (cfg.POSITION_SIZE_MAX - cfg.POSITION_SIZE_MIN))

-- ── market_scorer.py ─────────────────────────────────────────────────────────

/-- One element of a per-market history list: (timestamp, yes_price, volume)
    as appended by MarketScorer.record. -/
abbrev Obs := ℚ × ℚ × ℚ

/-- MarketScorer._price_score: returns (points, zone). -/
def price_score (yes_price : ℚ) : Nat × String :=
  if 6/100 ≤ yes_price ∧ yes_price < 9/100 then (30, "A")
  else if 9/100 ≤ yes_price ∧ yes_price ≤ 12/100 then (20, "B")
  else (0, "-")

/-- MarketScorer._trajectory_score over a history list. -/
def trajectory_score (hist : List Obs) : Nat :=
  if hist.length < 2 then 0
  else
    let n := min 4 hist.length
    let prices := (hist.drop (hist.length - n)).map (fun e => e.2.1)
    match prices with
    | [] => 0
    | p :: ps =>
      let hi := ps.foldl max p
      let lo := ps.foldl min p
      let lastp := ps.getLast?.getD p
      let variation := hi - lo
      let avg_change := (lastp - p) / (((p :: ps).length - 1 : ℕ) : ℚ)
      if 2/100 < avg_change then 10
      else if 5/1000 ≤ avg_change then 30
      else if variation < 1/100 then 20
      else 0

/-- MarketScorer._volume_score (default thresholds 500 / 300 / 200). -/
def volume_score (volume : ℚ) : Nat :=
  if SCORE_VOLUME_HIGH ≤ volume then 20
  else if SCORE_VOLUME_MID ≤ volume then 15
  else if SCORE_VOLUME_LOW ≤ volume then 10
  else 0

/-- MarketScorer._time_score.  The current instant is represented by its
    UTC hour (an integer); adding the whole-hour city offset and reading
    the local .hour field equals (utc_hour + offset) mod 24.  A city absent
    from CITY_UTC_OFFSET scores 0. -/
def time_score (now_utc_hour : Int) (city : String) : Nat :=
  match alookup CITY_UTC_OFFSET city with
  | none => 0
  | some off =>
    let h := (now_utc_hour + off) % 24
    if 16 ≤ h then 20
    else if 14 ≤ h then 15
    else if 12 ≤ h then 10
    else if 11 ≤ h then 5
    else 0

/-- The score breakdown dict returned by MarketScorer.score. -/
structure ScoreBreakdown where
  total : Nat
  price : Nat
  trajectory : Nat
  volume : Nat
  time : Nat
  observations : Nat
  zone : String
deriving DecidableEq, Repr

/-- MarketScorer.score, applied to the history list of one market
    (the Python method reads it from the internal dict under the lock). -/
def score (hist : List Obs) (city : String) (now_utc_hour : Int) :
    ScoreBreakdown :=
  match hist.getLast? with
  | none =>
    { total := 0, price := 0, trajectory := 0, volume := 0, time := 0,
      observations := 0, zone := "-" }
  | some lastObs =>
    let ps := price_score lastObs.2.1
    let traj := trajectory_score hist
    let vol := volume_score lastObs.2.2
    let tim := time_score now_utc_hour city
    { total := ps.1 + traj + vol + tim
      price := ps.1
      trajectory := traj
      volume := vol
      time := tim
      observations := hist.length
      zone := ps.2 }

/-- MarketScorer.get_all_scores: scores every tracked market, always with
    the empty-string city. -/
def get_all_scores (histories : List (String × List Obs))
    (now_utc_hour : Int) : List (String × ScoreBreakdown) :=
  histories.map (fun e => (e.1, score e.2 "" now_utc_hour))

-- ── bot.py discovery verification pass (the CLOB circuit breaker) ────────────

/-- One discovery candidate, together with what the fast source
    (fetch_yes_price_clob) would return if queried for it.  has_tid is
    whether the opportunity carries a yes_token_id. -/
structure Candidate where
  has_tid : Bool
  fetch_yes : Option ℚ
  fetch_no : Option ℚ
deriving DecidableEq, Repr

/-- What the verification loop produced for one candidate: whether the
    fast source was actually queried, and the validated real-time YES
    price.  priced = none is exactly the code path that appends the
    candidate to display_opps with score 0 and zone "-" and skips
    recording / scoring / entry. -/
structure VerifyResult where
  queried : Bool
  priced : Option ℚ
deriving DecidableEq, Repr

/-- The value of rt_yes after the token-inversion sanity check of
    BotRunner._cycle: a fetched YES price > 0.50 is discarded (possible
    inverted token), and an absent price stays absent. -/
def sanitized (c : Candidate) : Option ℚ :=
  match c.fetch_yes with
  | some y => if (1/2 : ℚ) < y then none else some y
  | none => none

/-- One iteration of the candidate loop in BotRunner._cycle (lines
    126-144): state is (clob_ok, clob_fails).  A candidate is queried only
    while clob_ok holds and it has a token id; a failed or discarded fetch
    increments clob_fails and trips the breaker at 5. -/
def verifyStep (st : Bool × Nat) (c : Candidate) :
    (Bool × Nat) × VerifyResult :=
  if st.1 && c.has_tid then
    match sanitized c with
    | none =>
      let fails := st.2 + 1
      ((if 5 ≤ fails then false else st.1, fails), ⟨true, none⟩)
    | some y => (st, ⟨true, some y⟩)
  else (st, ⟨false, none⟩)

/-- The whole per-candidate verification loop of one cycle, returning the
    final breaker state and the per-candidate results in order. -/
def runVerify (st : Bool × Nat) : List Candidate →
    (Bool × Nat) × List VerifyResult
  | [] => (st, [])
  | c :: cs =>
    let r := verifyStep st c
    let rest := runVerify r.1 cs
    (rest.1, r.2 :: rest.2)

/-- Number of candidates that were actually queried and yielded no valid
    price (the failures the clob_fails counter counts). -/
def numFailedQueries (rs : List VerifyResult) : Nat :=
  (rs.filter (fun r => r.queried && r.priced.isNone)).length

-- ── Reachable portfolio states (open / close call sequences) ─────────────────

/-- Helper sums for the capital accounting invariant. -/
def sumAllocated (l : List (String × Position)) : ℚ :=
  (l.map (fun e => e.2.allocated)).sum

def sumPnl (l : List Position) : ℚ :=
  (l.map Position.pnl).sum

/-- Portfolio states produced from __init__ by any sequence of
    open_position and _close_position calls.  open_position is only ever
    called on a condition_id that is not currently open: _cycle hands
    scan_opportunities the set of open and closed ids and the discovery
    contract excludes them. -/
inductive Reachable : AutoPortfolio → Prop
  | init (c : ℚ) : Reachable (AutoPortfolio.init c)
  | step_open (s s' : AutoPortfolio) (opp : Opportunity) (amount : ℚ)
      (hs : Reachable s)
      (hfresh : alookup s.positions opp.condition_id = none)
      (hopen : s.open_position opp amount = some s') : Reachable s'
  | step_close (s : AutoPortfolio) (cid : String) (status : PStatus)
      (pnl : ℚ) (resolution : String) (hs : Reachable s) :
      Reachable (s.close_position cid status pnl resolution)


-- ── Shared association-list lemmas ───────────────────────────────────────────

lemma alookup_eq_none_iff {α : Type} (l : List (String × α)) (k : String) :
    alookup l k = none ↔ k ∉ l.map Prod.fst := by
  induction l with
  | nil => simp [alookup]
  | cons e l ih =>
    by_cases h : e.1 = k
    · simp [alookup, h]
    · simp [alookup, h, ih, Ne.symm h]

lemma upsert_of_fresh {α : Type} (l : List (String × α)) (k : String) (v : α)
    (h : alookup l k = none) : upsert l k v = l ++ [(k, v)] := by
  induction l with
  | nil => rfl
  | cons e l ih =>
    simp only [alookup] at h
    by_cases he : e.1 = k
    · simp [he] at h
    · simp only [upsert, if_neg he, List.cons_append]
      rw [ih (by simpa [he] using h)]

lemma alookup_upsert_self {α : Type} (l : List (String × α)) (k : String)
    (v : α) : alookup (upsert l k v) k = some v := by
  induction l with
  | nil => simp [upsert, alookup]
  | cons e l ih =>
    by_cases h : e.1 = k
    · simp [upsert, h, alookup]
    · simp [upsert, h, alookup, ih]

lemma eraseKey_sublist {α : Type} (l : List (String × α)) (k : String) :
    (eraseKey l k).Sublist l := by
  induction l with
  | nil => simp [eraseKey]
  | cons e l ih =>
    by_cases h : e.1 = k
    · simpa [eraseKey, h] using ih.cons e
    · simpa [eraseKey, h] using ih.cons₂ e

lemma eraseKey_of_none {α : Type} (l : List (String × α)) (k : String)
    (h : alookup l k = none) : eraseKey l k = l := by
  induction l with
  | nil => rfl
  | cons e l ih =>
    simp only [alookup] at h
    by_cases he : e.1 = k
    · simp [he] at h
    · simp only [eraseKey, if_neg he]
      rw [ih (by simpa [he] using h)]

lemma alookup_eraseKey_ne {α : Type} (l : List (String × α)) (k c : String)
    (h : k ≠ c) : alookup (eraseKey l c) k = alookup l k := by
  induction l with
  | nil => rfl
  | cons e l ih =>
    by_cases he : e.1 = c
    · have : e.1 ≠ k := by rw [he]; exact fun hh => h hh.symm
      simp [eraseKey, alookup, he, this, ih, Ne.symm h]
    · simp only [eraseKey, if_neg he, alookup]
      by_cases hek : e.1 = k
      · simp [hek]
      · simp [hek, ih]

lemma sumAllocated_cons (e : String × Position) (l : List (String × Position)) :
    sumAllocated (e :: l) = e.2.allocated + sumAllocated l := by
  simp [sumAllocated]

lemma sumAllocated_append (l₁ l₂ : List (String × Position)) :
    sumAllocated (l₁ ++ l₂) = sumAllocated l₁ + sumAllocated l₂ := by
  simp [sumAllocated]

lemma sumAllocated_eraseKey (l : List (String × Position)) (k : String)
    (pos : Position) (hnd : (l.map Prod.fst).Nodup)
    (h : alookup l k = some pos) :
    sumAllocated (eraseKey l k) = sumAllocated l - pos.allocated := by
  induction l with
  | nil => simp [alookup] at h
  | cons e l ih =>
    simp only [List.map_cons, List.nodup_cons] at hnd
    by_cases he : e.1 = k
    · simp only [alookup, if_pos he] at h
      have hnone : alookup l k = none := by
        rw [alookup_eq_none_iff]
        rw [he] at hnd
        exact hnd.1
      simp only [eraseKey, if_pos he, eraseKey_of_none l k hnone]
      obtain rfl : e.2 = pos := Option.some.inj h
      simp [sumAllocated]
    · simp only [alookup, if_neg he] at h
      simp only [eraseKey, if_neg he]
      rw [sumAllocated_cons, sumAllocated_cons, ih hnd.2 h]
      ring

lemma nodup_keys_upsert_fresh {α : Type} (l : List (String × α)) (k : String)
    (v : α) (hnd : (l.map Prod.fst).Nodup) (h : alookup l k = none) :
    ((upsert l k v).map Prod.fst).Nodup := by
  rw [upsert_of_fresh l k v h, List.map_append]
  refine List.Nodup.append hnd (List.nodup_singleton k) ?_
  intro a ha hb
  rw [List.map_singleton, List.mem_singleton] at hb
  subst hb
  exact (alookup_eq_none_iff l a).1 h ha

lemma nodup_keys_eraseKey {α : Type} (l : List (String × α)) (k : String)
    (hnd : (l.map Prod.fst).Nodup) : ((eraseKey l k).map Prod.fst).Nodup :=
  List.Nodup.sublist ((eraseKey_sublist l k).map Prod.fst) hnd

-- ── C1: the region-exposure gate of the execution step ───────────────────────

def posC1 : Position :=
  { condition_id := "p1", question := "q", city := "chicago",
    entry_yes := 8/100, current_yes := 8/100, allocated := 24, tokens := 300,
    take_profit := 15/100, status := .OPEN, pnl := 0, resolution := "" }

def sC1 : AutoPortfolio :=
  { capital_inicial := 100, capital_total := 100, capital_disponible := 76,
    positions := [("p1", posC1)], closed_positions := [] }

/-- C1 counterexample: a portfolio with 24 currency units (24% of
    capital_total = 100) allocated to the midwest region, max exposure 25%.
    The execution-step gate accepts a further chicago position of amount 10
    even though the new region allocation 24 + 10 = 34 is not below
    capital_total * MAX_REGION_EXPOSURE = 25: region_has_capacity does not
    account for the size of the position about to be opened. -/
theorem c1_region_gate_counterexample :
    sC1.execGate "chicago" 10 = true ∧
    ¬ (sC1.get_region_allocated (regionOf "chicago") + 10
        < sC1.capital_total * MAX_REGION_EXPOSURE) := by
  constructor
  · norm_num [AutoPortfolio.execGate, AutoPortfolio.can_open_position,
      AutoPortfolio.region_has_capacity, AutoPortfolio.get_region_allocated,
      sC1, posC1, regionOf, REGION_MAP, alookup, MAX_POSITIONS,
      MAX_REGION_EXPOSURE]
  · norm_num [AutoPortfolio.get_region_allocated, sC1, posC1, regionOf,
      REGION_MAP, alookup, MAX_REGION_EXPOSURE]

/-- C1 (amended): the execution step accepts a further position in a
    region exactly on the strength of the existing allocation being
    strictly below capital_total * MAX_REGION_EXPOSURE; the acceptance
    decision is independent of the amount of the position about to be
    opened (beyond the 0.50 dust threshold), so the post-open region
    allocation may reach or exceed the cap. -/
theorem c1_region_gate_amended (s : AutoPortfolio) (city : String)
    (a₁ a₂ : ℚ) (h₁ : (1/2 : ℚ) ≤ a₁) (h₂ : (1/2 : ℚ) ≤ a₂) :
    (s.execGate city a₁ = true →
      s.get_region_allocated (regionOf city)
        < s.capital_total * MAX_REGION_EXPOSURE) ∧
    s.execGate city a₁ = s.execGate city a₂ := by
  constructor
  · intro h
    simp only [AutoPortfolio.execGate, AutoPortfolio.region_has_capacity,
      Bool.and_eq_true, decide_eq_true_eq] at h
    exact h.1.2
  · simp only [AutoPortfolio.execGate]
    rw [decide_eq_true h₁, decide_eq_true h₂]

/-- C1 witness: the amended theorem applied to the counterexample state. -/
theorem c1_region_gate_witness :
    (sC1.execGate "chicago" 10 = true →
      sC1.get_region_allocated (regionOf "chicago")
        < sC1.capital_total * MAX_REGION_EXPOSURE) ∧
    sC1.execGate "chicago" 10 = sC1.execGate "chicago" 24 :=
  c1_region_gate_amended sC1 "chicago" 10 24 (by norm_num) (by norm_num)

-- ── C6: synthetic history score values ───────────────────────────────────────

def c6hist : List Obs :=
  [(0, 6/100, 0), (1, 7/100, 0), (2, 8/100, 0), (3, 9/100, 0)]

/-- C6: for the price history [0.06, 0.07, 0.08, 0.09] the trajectory
    sub-score is 30 (avg_change = 0.01 lies in the gradual-upward band),
    and the price sub-score of the last value 0.09 is 20 with zone B
    (the boundary 0.09 belongs to zone B, not zone A). -/
theorem c6_synthetic_history_scores :
    trajectory_score c6hist = 30 ∧ price_score (9/100) = (20, "B") := by
  constructor
  · norm_num [trajectory_score, c6hist]
  · norm_num [price_score]

-- ── C7: closing an id that is not open is a no-op ────────────────────────────

/-- C7: for every condition_id not present in the open-position map,
    _close_position returns without error and leaves the whole portfolio
    state (open map, closed list, capital_total, capital_disponible)
    unchanged. -/
theorem c7_close_missing_noop (s : AutoPortfolio) (cid : String)
    (status : PStatus) (pnl : ℚ) (resolution : String)
    (h : alookup s.positions cid = none) :
    s.close_position cid status pnl resolution = s := by
  unfold AutoPortfolio.close_position
  rw [h]

/-- C7 witness: closing an unknown id on a fresh portfolio is a no-op. -/
theorem c7_close_missing_noop_witness :
    (AutoPortfolio.init 100).close_position "x" .WON 5 ""
      = AutoPortfolio.init 100 :=
  c7_close_missing_noop (AutoPortfolio.init 100) "x" .WON 5 "" rfl

-- ── C5: position sizing band ─────────────────────────────────────────────────

/-- C5: for entry prices inside the configured band, calc_position_size is
    monotonically non-increasing in the price; with a positive-width band
    the size at MIN_YES_PRICE is POSITION_SIZE_MAX * capital and the size
    at MAX_YES_PRICE is POSITION_SIZE_MIN * capital; with a zero-width band
    the maximum fraction is always used.  capital is the available capital,
    which is non-negative at the call site (can_open_position guarantees
    capital_disponible ≥ 0.50 before sizing), and the configured minimum
    fraction does not exceed the maximum fraction (defaults 1% ≤ 2%). -/
theorem c5_position_sizing (cfg : SizingConfig) (capital p₁ p₂ : ℚ)
    (hcap : 0 ≤ capital)
    (hfr : cfg.POSITION_SIZE_MIN ≤ cfg.POSITION_SIZE_MAX) :
    (cfg.MIN_YES_PRICE ≤ p₁ → p₁ ≤ p₂ → p₂ ≤ cfg.MAX_YES_PRICE →
      calc_position_size cfg capital p₂ ≤ calc_position_size cfg capital p₁) ∧
    (0 < cfg.MAX_YES_PRICE - cfg.MIN_YES_PRICE →
      calc_position_size cfg capital cfg.MIN_YES_PRICE
          = cfg.POSITION_SIZE_MAX * capital ∧
      calc_position_size cfg capital cfg.MAX_YES_PRICE
          = cfg.POSITION_SIZE_MIN * capital) ∧
    (cfg.MAX_YES_PRICE - cfg.MIN_YES_PRICE ≤ 0 →
      ∀ p, calc_position_size cfg capital p = cfg.POSITION_SIZE_MAX * capital) := by
  refine ⟨?_, ?_, ?_⟩
  · intro _ h12 _
    by_cases hpr : cfg.MAX_YES_PRICE - cfg.MIN_YES_PRICE ≤ 0
    · simp [calc_position_size, hpr]
    · push_neg at hpr
      simp only [calc_position_size, if_neg (not_le.2 hpr)]
      have ht : (cfg.MAX_YES_PRICE - p₂) / (cfg.MAX_YES_PRICE - cfg.MIN_YES_PRICE)
          ≤ (cfg.MAX_YES_PRICE - p₁) / (cfg.MAX_YES_PRICE - cfg.MIN_YES_PRICE) := by
        rw [div_eq_mul_inv, div_eq_mul_inv]
        exact mul_le_mul_of_nonneg_right (by linarith) (inv_nonneg.2 hpr.le)
      have htc : max 0 (min 1 ((cfg.MAX_YES_PRICE - p₂)
            / (cfg.MAX_YES_PRICE - cfg.MIN_YES_PRICE)))
          ≤ max 0 (min 1 ((cfg.MAX_YES_PRICE - p₁)
            / (cfg.MAX_YES_PRICE - cfg.MIN_YES_PRICE))) :=
        max_le_max le_rfl (min_le_min le_rfl ht)
      refine mul_le_mul_of_nonneg_left ?_ hcap
      refine add_le_add_left ?_ _
      exact mul_le_mul_of_nonneg_right htc (by linarith)
  · intro hpr
    constructor
    · simp only [calc_position_size, if_neg (not_le.2 hpr)]
      rw [div_self hpr.ne']
      norm_num
      ring
    · simp only [calc_position_size, sub_self, zero_div]
      rw [if_neg (not_le.2 hpr)]
      norm_num
      ring
  · intro hpr p
    simp only [calc_position_size, if_pos hpr]
    ring

/-- C5 witness: the sizing theorem at the default config with capital 100
    and the band endpoints 0.06 and 0.12. -/
theorem c5_position_sizing_witness :
    (defaultSizing.MIN_YES_PRICE ≤ 6/100 → (6/100 : ℚ) ≤ 12/100 →
      12/100 ≤ defaultSizing.MAX_YES_PRICE →
      calc_position_size defaultSizing 100 (12/100)
        ≤ calc_position_size defaultSizing 100 (6/100)) ∧
    (0 < defaultSizing.MAX_YES_PRICE - defaultSizing.MIN_YES_PRICE →
      calc_position_size defaultSizing 100 defaultSizing.MIN_YES_PRICE
          = defaultSizing.POSITION_SIZE_MAX * 100 ∧
      calc_position_size defaultSizing 100 defaultSizing.MAX_YES_PRICE
          = defaultSizing.POSITION_SIZE_MIN * 100) ∧
    (defaultSizing.MAX_YES_PRICE - defaultSizing.MIN_YES_PRICE ≤ 0 →
      ∀ p, calc_position_size defaultSizing 100 p
          = defaultSizing.POSITION_SIZE_MAX * 100) :=
  c5_position_sizing defaultSizing 100 (6/100) (12/100) (by norm_num)
    (by norm_num [defaultSizing])

-- ── C3: exit priority order ──────────────────────────────────────────────────

lemma applyLoop_toClose_keys_sublist (tp : ℚ) (l : List (String × Position))
    (m : List (String × ℚ × ℚ)) :
    ((applyLoop tp l m).2.map (fun e => e.1)).Sublist
      (m.map (fun e => e.1)) := by
  induction m generalizing l with
  | nil => simp [applyLoop]
  | cons e rest ih =>
    obtain ⟨cid, y, n⟩ := e
    simp only [applyLoop, List.map_cons]
    cases h : alookup l cid with
    | none =>
      exact (ih l).cons cid
    | some pos =>
      cases hdec : exitDecision tp { pos with current_yes := y } y n with
      | none =>
        simp only [hdec]
        exact (ih (setCurrentYes l cid y)).cons cid
      | some stp =>
        obtain ⟨st, pnl⟩ := stp
        simp only [hdec, List.map_cons]
        exact (ih (setCurrentYes l cid y)).cons₂ cid

/-- C3: for every position and every price update, the exit decision of
    apply_price_updates is evaluated in strict priority order WON
    (yes ≥ 0.99), then LOST (no ≥ 0.99), then TAKE_PROFIT (yes ≥ tp), and
    produces at most one outcome; in particular yes = 0.99, no = 0.01
    closes as WON with pnl = tokens * 0.99 - allocated for every take
    profit level tp, even when tp < 0.99.  The last conjunct is the
    per-call uniqueness: with distinct price-map keys the to_close list
    contains each position at most once. -/
theorem c3_exit_priority (tp : ℚ) (pos : Position) (yes no : ℚ) :
    ((99/100 : ℚ) ≤ yes →
      exitDecision tp pos yes no
        = some (.WON, pos.tokens * yes - pos.allocated)) ∧
    (yes < 99/100 → (99/100 : ℚ) ≤ no →
      exitDecision tp pos yes no = some (.LOST, -pos.allocated)) ∧
    (yes < 99/100 → no < 99/100 → tp ≤ yes →
      exitDecision tp pos yes no
        = some (.TAKE_PROFIT, pos.tokens * yes - pos.allocated)) ∧
    (yes < 99/100 → no < 99/100 → yes < tp →
      exitDecision tp pos yes no = none) ∧
    (exitDecision tp pos (99/100) (1/100)
        = some (.WON, pos.tokens * (99/100) - pos.allocated)) ∧
    (∀ (l : List (String × Position)) (m : List (String × ℚ × ℚ)),
      (m.map (fun e => e.1)).Nodup →
      ((applyLoop tp l m).2.map (fun e => e.1)).Nodup) := by
  refine ⟨?_, ?_, ?_, ?_, ?_, ?_⟩
  · intro h
    simp only [exitDecision, if_pos h]
  · intro h1 h2
    simp only [exitDecision, if_neg (not_le.2 h1), if_pos h2]
  · intro h1 h2 h3
    simp only [exitDecision, if_neg (not_le.2 h1), if_neg (not_le.2 h2),
      if_pos h3]
  · intro h1 h2 h3
    simp only [exitDecision, if_neg (not_le.2 h1), if_neg (not_le.2 h2),
      if_neg (not_le.2 h3)]
  · simp only [exitDecision, if_pos le_rfl]
  · intro l m hnd
    exact List.Nodup.sublist (applyLoop_toClose_keys_sublist tp l m) hnd

def posC3 : Position :=
  { condition_id := "c3", question := "q", city := "nyc",
    entry_yes := 8/100, current_yes := 8/100, allocated := 10, tokens := 125,
    take_profit := 15/100, status := .OPEN, pnl := 0, resolution := "" }

/-- C3 witness: at the default take profit 0.15, the update (0.99, 0.01)
    resolves WON and the update (0.16, 0.84) resolves TAKE_PROFIT. -/
theorem c3_exit_priority_witness :
    exitDecision TAKE_PROFIT_YES posC3 (99/100) (1/100)
      = some (.WON, posC3.tokens * (99/100) - posC3.allocated) ∧
    exitDecision TAKE_PROFIT_YES posC3 (16/100) (84/100)
      = some (.TAKE_PROFIT, posC3.tokens * (16/100) - posC3.allocated) :=
  ⟨(c3_exit_priority TAKE_PROFIT_YES posC3 (99/100) (1/100)).1 (by norm_num),
   (c3_exit_priority TAKE_PROFIT_YES posC3 (16/100) (84/100)).2.2.1
     (by norm_num) (by norm_num) (by norm_num [TAKE_PROFIT_YES])⟩

-- ── C8: open_position is unconditional ───────────────────────────────────────

/-- C8: for every opportunity with non-zero yes_price and every amount,
    open_position succeeds unconditionally: it inserts an OPEN position
    with tokens = amount / yes_price and entry_yes = yes_price, decrements
    capital_disponible by amount, changes neither capital_total nor the
    closed list, and performs no validation — when amount exceeds
    capital_disponible the resulting capital_disponible is negative.  At
    yes_price = 0 the unguarded division raises (modeled as none). -/
theorem c8_open_unconditional (s : AutoPortfolio) (opp : Opportunity)
    (amount : ℚ) :
    (opp.yes_price = 0 → s.open_position opp amount = none) ∧
    (opp.yes_price ≠ 0 →
      ∃ s₂, s.open_position opp amount = some s₂ ∧
        alookup s₂.positions opp.condition_id = some
          { condition_id := opp.condition_id, question := opp.question,
            city := opp.city, entry_yes := opp.yes_price,
            current_yes := opp.yes_price, allocated := amount,
            tokens := amount / opp.yes_price,
            take_profit := TAKE_PROFIT_YES, status := .OPEN, pnl := 0,
            resolution := "" } ∧
        s₂.capital_disponible = s.capital_disponible - amount ∧
        s₂.capital_total = s.capital_total ∧
        s₂.closed_positions = s.closed_positions ∧
        (s.capital_disponible < amount → s₂.capital_disponible < 0)) := by
  constructor
  · intro h
    simp [AutoPortfolio.open_position, h]
  · intro h
    simp only [AutoPortfolio.open_position, if_neg h]
    refine ⟨_, rfl, alookup_upsert_self _ _ _, rfl, rfl, rfl, ?_⟩
    intro hlt
    simpa using sub_neg.2 hlt

def oppC8 : Opportunity :=
  { condition_id := "w8", question := "q", city := "nyc", volume := 300,
    yes_price := 1/10, no_price := 9/10 }

/-- C8 witness: opening a 200-unit position on a portfolio holding 100
    available succeeds and drives capital_disponible negative. -/
theorem c8_open_unconditional_witness :
    ∃ s₂, (AutoPortfolio.init 100).open_position oppC8 200 = some s₂ ∧
      alookup s₂.positions oppC8.condition_id = some
        { condition_id := oppC8.condition_id, question := oppC8.question,
          city := oppC8.city, entry_yes := oppC8.yes_price,
          current_yes := oppC8.yes_price, allocated := 200,
          tokens := 200 / oppC8.yes_price,
          take_profit := TAKE_PROFIT_YES, status := .OPEN, pnl := 0,
          resolution := "" } ∧
      s₂.capital_disponible = (AutoPortfolio.init 100).capital_disponible - 200 ∧
      s₂.capital_total = (AutoPortfolio.init 100).capital_total ∧
      s₂.closed_positions = (AutoPortfolio.init 100).closed_positions ∧
      ((AutoPortfolio.init 100).capital_disponible < 200 →
        s₂.capital_disponible < 0) :=
  (c8_open_unconditional (AutoPortfolio.init 100) oppC8 200).2
    (by norm_num [oppC8])

-- ── C10: get_all_scores always uses the empty city ───────────────────────────

lemma time_score_empty_city (now : Int) : time_score now "" = 0 := by
  have h : alookup CITY_UTC_OFFSET "" = none := by
    simp [CITY_UTC_OFFSET, alookup]
  simp [time_score, h]

lemma score_time_empty_city (hist : List Obs) (now : Int) :
    (score hist "" now).time = 0 := by
  cases hl : hist.getLast? with
  | none => simp [score, hl]
  | some o => simp [score, hl, time_score_empty_city]

lemma alookup_get_all_scores (histories : List (String × List Obs))
    (now : Int) (cid : String) :
    alookup (get_all_scores histories now) cid
      = (alookup histories cid).map (fun h => score h "" now) := by
  induction histories with
  | nil => simp [get_all_scores, alookup]
  | cons e l ih =>
    by_cases h : e.1 = cid
    · simp [get_all_scores, alookup, h]
    · simpa [get_all_scores, alookup, h] using ih

def c10hist : List Obs := [(0, 7/100, 600)]

/-- C10: every score returned by get_all_scores has time-of-day sub-score
    0, because get_all_scores passes the empty-string city, absent from
    CITY_UTC_OFFSET; consequently the total it reports can be strictly
    lower than the total the entry gate computes with the real city
    (witnessed by a chicago market at local hour 16). -/
theorem c10_all_scores_time_zero :
    (∀ (histories : List (String × List Obs)) (now : Int) (cid : String)
        (sc : ScoreBreakdown),
        alookup (get_all_scores histories now) cid = some sc →
        sc.time = 0) ∧
    (score c10hist "" 22).total < (score c10hist "chicago" 22).total := by
  constructor
  · intro histories now cid sc h
    rw [alookup_get_all_scores] at h
    cases hh : alookup histories cid with
    | none => rw [hh] at h; cases h
    | some hist =>
      rw [hh] at h
      obtain rfl : score hist "" now = sc := Option.some.inj h
      exact score_time_empty_city hist now
  · have hp : price_score (7/100) = (30, "A") := by norm_num [price_score]
    have ht : trajectory_score c10hist = 0 := by
      norm_num [trajectory_score, c10hist]
    have hv : volume_score 600 = 20 := by
      norm_num [volume_score, SCORE_VOLUME_HIGH]
    have htime : time_score 22 "chicago" = 20 := by
      simp [time_score, alookup, CITY_UTC_OFFSET]
    have htime0 : time_score 22 "" = 0 := time_score_empty_city 22
    simp [score, c10hist, List.getLast?, hp, ht, hv, htime, htime0]

/-- C10 witness: the universal part applied to a concrete one-market
    scorer state. -/
theorem c10_all_scores_time_zero_witness :
    (score c10hist "" 7).time = 0 :=
  c10_all_scores_time_zero.1 [("m", c10hist)] 7 "m" (score c10hist "" 7)
    (by simp [get_all_scores, alookup])

-- ── C2: the capital accounting invariant ─────────────────────────────────────

lemma reachable_inv (s : AutoPortfolio) (h : Reachable s) :
    (s.positions.map Prod.fst).Nodup ∧
    s.capital_disponible + sumAllocated s.positions = s.capital_total ∧
    s.capital_total = s.capital_inicial + sumPnl s.closed_positions := by
  induction h with
  | init c => simp [AutoPortfolio.init, sumAllocated, sumPnl]
  | step_open s s' opp amount hs hfresh hopen ih =>
    simp only [AutoPortfolio.open_position] at hopen
    split at hopen
    · cases hopen
    · obtain rfl : _ = s' := Option.some.inj hopen
      refine ⟨nodup_keys_upsert_fresh _ _ _ ih.1 hfresh, ?_, ih.2.2⟩
      rw [upsert_of_fresh _ _ _ hfresh, sumAllocated_append]
      have h21 := ih.2.1
      simp only [sumAllocated, List.map_cons, List.map_nil, List.sum_cons,
        List.sum_nil] at h21 ⊢
      linarith
  | step_close s cid status pnl resolution hs ih =>
    cases halo : alookup s.positions cid with
    | none =>
      simpa [AutoPortfolio.close_position, halo] using ih
    | some pos =>
      simp only [AutoPortfolio.close_position, halo]
      refine ⟨nodup_keys_eraseKey _ _ ih.1, ?_, ?_⟩
      · rw [sumAllocated_eraseKey _ _ _ ih.1 halo]
        have h21 := ih.2.1
        linarith
      · simp only [sumPnl, List.map_append, List.map_cons, List.map_nil,
          List.sum_append, List.sum_cons, List.sum_nil]
        have := ih.2.2
        simp only [sumPnl] at this
        linarith

/-- C2 (amended): in every reachable portfolio state, capital_disponible
    plus the sum of allocated over open positions equals capital_total,
    and capital_total equals capital_inicial plus the sum of realized pnl
    over closed positions.  (The originally claimed equality adds the
    closed pnl a second time on the left; closing already credits pnl to
    both capital_disponible and capital_total.) -/
theorem c2_capital_invariant (s : AutoPortfolio) (h : Reachable s) :
    s.capital_disponible + sumAllocated s.positions = s.capital_total ∧
    s.capital_total = s.capital_inicial + sumPnl s.closed_positions :=
  ⟨(reachable_inv s h).2.1, (reachable_inv s h).2.2⟩

def oppC2 : Opportunity :=
  { condition_id := "a", question := "q", city := "", volume := 0,
    yes_price := 1/10, no_price := 9/10 }

def posC2 : Position :=
  { condition_id := "a", question := "q", city := "", entry_yes := 1/10,
    current_yes := 1/10, allocated := 10, tokens := 100,
    take_profit := 15/100, status := .OPEN, pnl := 0, resolution := "" }

def sC2a : AutoPortfolio :=
  { capital_inicial := 100, capital_total := 100, capital_disponible := 90,
    positions := [("a", posC2)], closed_positions := [] }

def sC2b : AutoPortfolio :=
  { capital_inicial := 100, capital_total := 189, capital_disponible := 189,
    positions := [],
    closed_positions := [{ posC2 with status := .WON, pnl := 89 }] }

lemma reachable_sC2b : Reachable sC2b := by
  have h1 : (AutoPortfolio.init 100).open_position oppC2 10 = some sC2a := by
    simp [AutoPortfolio.open_position, oppC2, AutoPortfolio.init, sC2a,
      posC2, upsert, TAKE_PROFIT_YES]
    norm_num
  have h2 : sC2a.close_position "a" .WON 89 "" = sC2b := by
    simp [AutoPortfolio.close_position, sC2a, sC2b, alookup, eraseKey, posC2]
    norm_num
  have hr : Reachable sC2a :=
    Reachable.step_open (AutoPortfolio.init 100) sC2a oppC2 10
      (Reachable.init 100) (by simp [AutoPortfolio.init, alookup]) h1
  exact h2 ▸ Reachable.step_close sC2a "a" .WON 89 "" hr

/-- C2 counterexample: open a 10-unit position at YES 0.10 on a fresh
    100-unit portfolio, then close it WON with realized pnl 89
    (tokens * 0.99 - allocated).  In the resulting reachable state
    capital_disponible + Σ(open allocated) + Σ(closed pnl)
    = 189 + 0 + 89 = 278, but capital_total = 189: the claimed equality
    counts realized pnl twice. -/
theorem c2_capital_counterexample :
    Reachable sC2b ∧
    ¬ (sC2b.capital_disponible + sumAllocated sC2b.positions
        + sumPnl sC2b.closed_positions = sC2b.capital_total) :=
  ⟨reachable_sC2b, by norm_num [sC2b, sumAllocated, sumPnl, posC2]⟩

/-- C2 witness: the amended invariant evaluated in the same reachable
    state. -/
theorem c2_capital_invariant_witness :
    sC2b.capital_disponible + sumAllocated sC2b.positions
        = sC2b.capital_total ∧
    sC2b.capital_total = sC2b.capital_inicial + sumPnl sC2b.closed_positions :=
  c2_capital_invariant sC2b reachable_sC2b

-- ── C4: the discovery-pass circuit breaker ───────────────────────────────────

lemma runVerify_false (k : Nat) (cs : List Candidate) :
    runVerify (false, k) cs
      = ((false, k), cs.map (fun _ => ⟨false, none⟩)) := by
  induction cs with
  | nil => rfl
  | cons c cs ih => simp [runVerify, verifyStep, ih]

lemma runVerify_length (st : Bool × Nat) (cs : List Candidate) :
    (runVerify st cs).2.length = cs.length := by
  induction cs generalizing st with
  | nil => rfl
  | cons c cs ih => simp [runVerify, ih]

lemma runVerify_append (st : Bool × Nat) (a b : List Candidate) :
    runVerify st (a ++ b)
      = ((runVerify (runVerify st a).1 b).1,
         (runVerify st a).2 ++ (runVerify (runVerify st a).1 b).2) := by
  induction a generalizing st with
  | nil => simp [runVerify]
  | cons c a ih => simp [runVerify, ih]

lemma verifyStep_fails (st : Bool × Nat) (c : Candidate) :
    (verifyStep st c).1.2
      = st.2 + (if ((verifyStep st c).2.queried
          && (verifyStep st c).2.priced.isNone) then 1 else 0) := by
  by_cases hq : (st.1 && c.has_tid) = true
  · cases hs : sanitized c with
    | none => simp [verifyStep, hq, hs]
    | some y => simp [verifyStep, hq, hs]
  · simp [verifyStep, hq]

lemma numFailedQueries_cons (r : VerifyResult) (rs : List VerifyResult) :
    numFailedQueries (r :: rs)
      = (if (r.queried && r.priced.isNone) then 1 else 0)
        + numFailedQueries rs := by
  simp only [numFailedQueries, List.filter_cons]
  split
  · simp_all
    omega
  · simp_all

lemma runVerify_count (st : Bool × Nat) (cs : List Candidate) :
    (runVerify st cs).1.2 = st.2 + numFailedQueries (runVerify st cs).2 := by
  induction cs generalizing st with
  | nil => simp [runVerify, numFailedQueries]
  | cons c cs ih =>
    simp only [runVerify, numFailedQueries_cons]
    rw [ih (verifyStep st c).1, verifyStep_fails st c]
    omega

lemma verifyStep_good (st : Bool × Nat) (c : Candidate)
    (h : (st.1 = true ∧ st.2 ≤ 4) ∨ (st.1 = false ∧ st.2 = 5)) :
    ((verifyStep st c).1.1 = true ∧ (verifyStep st c).1.2 ≤ 4)
      ∨ ((verifyStep st c).1.1 = false ∧ (verifyStep st c).1.2 = 5) := by
  obtain ⟨ok, fails⟩ := st
  rcases h with ⟨h1, h2⟩ | ⟨h1, h2⟩
  all_goals simp only at h1 h2
  all_goals subst h1
  · by_cases htid : c.has_tid = true
    · cases hs : sanitized c with
      | none =>
        by_cases h5 : 5 ≤ fails + 1
        · right
          simp [verifyStep, htid, hs, h5]
          omega
        · left
          simp [verifyStep, htid, hs, h5]
          omega
      | some y =>
        left
        simp [verifyStep, htid, hs]
        exact h2
    · left
      simp [verifyStep, htid]
      exact h2
  · right
    simp [verifyStep]
    exact h2

lemma runVerify_good (st : Bool × Nat) (cs : List Candidate)
    (h : (st.1 = true ∧ st.2 ≤ 4) ∨ (st.1 = false ∧ st.2 = 5)) :
    ((runVerify st cs).1.1 = true ∧ (runVerify st cs).1.2 ≤ 4)
      ∨ ((runVerify st cs).1.1 = false ∧ (runVerify st cs).1.2 = 5) := by
  induction cs generalizing st with
  | nil => exact h
  | cons c cs ih => exact ih _ (verifyStep_good st c h)

/-- C4 (amended): within one discovery verification pass, clob_fails
    counts the total number of failed fast-source attempts of the pass (a
    successful valid fetch does not reset it); the breaker opens exactly
    when the count reaches 5, and once it is open no remaining candidate
    of the pass is sent to the fast source and every remaining candidate
    is left unpriced, i.e. displayed with score 0. -/
theorem c4_breaker_amended (cs cs' : List Candidate) :
    ((runVerify (true, 0) cs).1.1 = false →
      ∀ r ∈ ((runVerify (true, 0) (cs ++ cs')).2.drop cs.length),
        r.queried = false ∧ r.priced = none) ∧
    (∀ st : Bool × Nat,
      (runVerify st cs).1.2 = st.2 + numFailedQueries (runVerify st cs).2) ∧
    ((runVerify (true, 0) cs).1.1 = false
      ↔ (runVerify (true, 0) cs).1.2 = 5) := by
  refine ⟨?_, fun st => runVerify_count st cs, ?_⟩
  · intro hfalse r hr
    rw [runVerify_append] at hr
    have hlen : (runVerify (true, 0) cs).2.length = cs.length :=
      runVerify_length _ _
    rw [← hlen, List.drop_left] at hr
    have hst : (runVerify (true, 0) cs).1
        = (false, (runVerify (true, 0) cs).1.2) := by
      rw [← hfalse]
    rw [hst, runVerify_false] at hr
    obtain ⟨c, hc, rfl⟩ := List.mem_map.1 hr
    exact ⟨rfl, rfl⟩
  · constructor
    · intro hfalse
      rcases runVerify_good (true, 0) cs (Or.inl ⟨rfl, by norm_num⟩) with
        ⟨ht, _⟩ | ⟨_, h5⟩
      · rw [hfalse] at ht
        cases ht
      · exact h5
    · intro h5
      rcases runVerify_good (true, 0) cs (Or.inl ⟨rfl, by norm_num⟩) with
        ⟨_, hle⟩ | ⟨hf, _⟩
      · rw [h5] at hle
        exact absurd hle (by norm_num)
      · exact hf

def candFail : Candidate :=
  { has_tid := true, fetch_yes := none, fetch_no := none }

def candGood : Candidate :=
  { has_tid := true, fetch_yes := some (1/10), fetch_no := some (9/10) }

def c4a : List Candidate := [candFail, candFail, candFail, candFail, candGood]

def c4b : List Candidate := c4a ++ [candFail, candGood]

def c4fails5 : List Candidate :=
  [candFail, candFail, candFail, candFail, candFail]

/-- C4 counterexample: after four failed fetches followed by one
    successful valid fetch, clob_fails still stands at 4 — the claimed
    reset to 0 on success does not happen — and one further failure then
    opens the breaker, so the seventh candidate (valid token id, good
    price, preceded by a single consecutive failure) is never queried and
    is left unpriced. -/
theorem c4_breaker_counterexample :
    (runVerify (true, 0) c4a).1 = (true, 4) ∧
    (runVerify (true, 0) c4b).2.getLast? = some ⟨false, none⟩ := by
  constructor
  · norm_num [runVerify, verifyStep, sanitized, c4a, candFail, candGood]
  · norm_num [runVerify, verifyStep, sanitized, c4a, c4b, candFail,
      candGood, List.getLast?]

/-- C4 witness: the amended theorem applied after five straight failures
    (the remaining good candidate is unqueried and unpriced) and the
    failure-count equation on a concrete pass. -/
theorem c4_breaker_witness :
    ((⟨false, none⟩ : VerifyResult).queried = false ∧
      (⟨false, none⟩ : VerifyResult).priced = none) ∧
    (runVerify (true, 0) c4a).1.2
      = 0 + numFailedQueries (runVerify (true, 0) c4a).2 :=
  ⟨(c4_breaker_amended c4fails5 [candGood]).1
      (by norm_num [runVerify, verifyStep, sanitized, c4fails5, candFail])
      ⟨false, none⟩
      (by norm_num [runVerify, verifyStep, sanitized, c4fails5, candFail,
        candGood]),
   (c4_breaker_amended c4a []).2.1 (true, 0)⟩

-- ── C9: frame property of apply_price_updates ────────────────────────────────

lemma alookup_setCurrentYes (l : List (String × Position)) (c : String)
    (v : ℚ) (k : String) :
    alookup (setCurrentYes l c v) k
      = if k = c then
          (alookup l k).map (fun p => { p with current_yes := v })
        else alookup l k := by
  induction l with
  | nil =>
    simp only [setCurrentYes, alookup, Option.map_none]
    split <;> rfl
  | cons e l ih =>
    by_cases hec : e.1 = c
    · by_cases hek : e.1 = k
      · have hkc : k = c := by rw [← hek, hec]
        simp [setCurrentYes, alookup, hec, hek, hkc]
      · simp only [setCurrentYes, if_pos hec, alookup, hec]
        by_cases hck : c = k
        · exact absurd (hec.trans hck) hek
        · simp [hck, ih]
    · by_cases hek : e.1 = k
      · have hkc : ¬ k = c := by rw [← hek]; exact fun h => hec h
        simp [setCurrentYes, alookup, hec, hek, hkc]
      · simp [setCurrentYes, alookup, hec, hek, ih]

lemma exitDecision_currentYes (tp : ℚ) (p : Position) (v yes no : ℚ) :
    exitDecision tp { p with current_yes := v } yes no
      = exitDecision tp p yes no := rfl

lemma applyLoop_positions_alookup (tp : ℚ) (l : List (String × Position))
    (m : List (String × ℚ × ℚ)) (k : String)
    (hk : k ∉ m.map Prod.fst) :
    alookup (applyLoop tp l m).1 k = alookup l k := by
  induction m generalizing l with
  | nil => rfl
  | cons e rest ih =>
    obtain ⟨cid, y, n⟩ := e
    simp only [List.map_cons, List.mem_cons] at hk
    push_neg at hk
    cases h : alookup l cid with
    | none =>
      simp only [applyLoop, h]
      exact ih l hk.2
    | some pos =>
      cases hdec : exitDecision tp { pos with current_yes := y } y n with
      | none =>
        simp only [applyLoop, h, hdec]
        rw [ih (setCurrentYes l cid y) hk.2, alookup_setCurrentYes,
          if_neg hk.1]
      | some stp =>
        obtain ⟨st, pnl⟩ := stp
        simp only [applyLoop, h, hdec]
        rw [ih (setCurrentYes l cid y) hk.2, alookup_setCurrentYes,
          if_neg hk.1]

lemma applyLoop_toClose_mem (tp : ℚ) (l : List (String × Position))
    (m : List (String × ℚ × ℚ)) (e : String × PStatus × ℚ)
    (he : e ∈ (applyLoop tp l m).2) : e.1 ∈ m.map Prod.fst := by
  have hs := applyLoop_toClose_keys_sublist tp l m
  have : e.1 ∈ (applyLoop tp l m).2.map (fun x => x.1) :=
    List.mem_map.2 ⟨e, he, rfl⟩
  have := hs.subset this
  simpa using this

lemma close_position_alookup_ne (s : AutoPortfolio) (cid k : String)
    (st : PStatus) (pnl : ℚ) (res : String) (h : k ≠ cid) :
    alookup (s.close_position cid st pnl res).positions k
      = alookup s.positions k := by
  unfold AutoPortfolio.close_position
  cases halo : alookup s.positions cid with
  | none => rfl
  | some pos =>
    simp only
    exact alookup_eraseKey_ne _ _ _ h

lemma foldClose_alookup (tc : List (String × PStatus × ℚ))
    (base : AutoPortfolio) (k : String) (h : k ∉ tc.map Prod.fst) :
    alookup ((tc.foldl
        (fun st e => st.close_position e.1 e.2.1 e.2.2 "") base)).positions k
      = alookup base.positions k := by
  induction tc generalizing base with
  | nil => rfl
  | cons e tc ih =>
    simp only [List.map_cons, List.mem_cons] at h
    push_neg at h
    simp only [List.foldl_cons]
    rw [ih _ h.2, close_position_alookup_ne _ _ _ _ _ _ h.1]

lemma alookup_setCurrentYes_isSome (l : List (String × Position))
    (c : String) (v : ℚ) (k : String) :
    (alookup (setCurrentYes l c v) k).isSome = (alookup l k).isSome := by
  rw [alookup_setCurrentYes]
  by_cases hk : k = c
  · rw [if_pos hk]
    cases alookup l k <;> rfl
  · rw [if_neg hk]

lemma applyLoop_filter (tp : ℚ) (l₀ : List (String × Position)) :
    ∀ (m : List (String × ℚ × ℚ)) (l : List (String × Position)),
    (∀ k, (alookup l k).isSome = (alookup l₀ k).isSome) →
    applyLoop tp l (m.filter (fun e => (alookup l₀ e.1).isSome))
      = applyLoop tp l m := by
  intro m
  induction m with
  | nil => intro l _; rfl
  | cons e rest ih =>
    intro l hiso
    obtain ⟨cid, y, n⟩ := e
    by_cases hopen : (alookup l₀ cid).isSome = true
    · rw [List.filter_cons_of_pos (by simpa using hopen)]
      cases h : alookup l cid with
      | none =>
        have : (alookup l cid).isSome = true := (hiso cid).trans hopen
        rw [h] at this
        cases this
      | some pos =>
        have hrec := ih (setCurrentYes l cid y)
          (fun k => (alookup_setCurrentYes_isSome l cid y k).trans (hiso k))
        simp only [applyLoop, h, hrec]
    · rw [List.filter_cons_of_neg (by simpa using hopen)]
      have h : alookup l cid = none := by
        cases hx : alookup l cid with
        | none => rfl
        | some pos =>
          have : (alookup l cid).isSome = true := by rw [hx]; rfl
          exact absurd ((hiso cid).symm.trans this) hopen
      rw [ih l hiso]
      simp only [applyLoop, h]

lemma applyLoop_noclose (tp : ℚ) (l₀ : List (String × Position)) :
    ∀ (m : List (String × ℚ × ℚ)) (l : List (String × Position)),
    (∀ k, (alookup l k).map (fun p => { p with current_yes := (0:ℚ) })
        = (alookup l₀ k).map (fun p => { p with current_yes := (0:ℚ) })) →
    (∀ e ∈ m, ∀ p, alookup l₀ e.1 = some p →
        exitDecision tp p e.2.1 e.2.2 = none) →
    (applyLoop tp l m).2 = [] := by
  intro m
  induction m with
  | nil => intro l _ _; rfl
  | cons e rest ih =>
    intro l hcs hdec
    obtain ⟨cid, y, n⟩ := e
    cases h : alookup l cid with
    | none =>
      simp only [applyLoop, h]
      exact ih l hcs (fun e he => hdec e (List.mem_cons_of_mem _ he))
    | some pos =>
      have h0 := hcs cid
      rw [h] at h0
      cases hl0 : alookup l₀ cid with
      | none =>
        rw [hl0] at h0
        cases h0
      | some p₀ =>
        rw [hl0] at h0
        have hcore : ({ pos with current_yes := (0:ℚ) } : Position)
            = { p₀ with current_yes := (0:ℚ) } := by
          simpa using h0
        have hd : exitDecision tp { pos with current_yes := y } y n = none := by
          calc exitDecision tp { pos with current_yes := y } y n
              = exitDecision tp pos y n := exitDecision_currentYes tp pos y y n
            _ = exitDecision tp { pos with current_yes := (0:ℚ) } y n :=
                (exitDecision_currentYes tp pos 0 y n).symm
            _ = exitDecision tp { p₀ with current_yes := (0:ℚ) } y n := by
                rw [hcore]
            _ = exitDecision tp p₀ y n := exitDecision_currentYes tp p₀ 0 y n
            _ = none := hdec (cid, y, n) (List.mem_cons_self _ _) p₀ hl0
        simp only [applyLoop, h, hd]
        refine ih (setCurrentYes l cid y) ?_
          (fun e he => hdec e (List.mem_cons_of_mem _ he))
        intro k
        rw [alookup_setCurrentYes]
        by_cases hk : k = cid
        · rw [if_pos hk, Option.map_map]
          exact hcs k
        · rw [if_neg hk]
          exact hcs k

/-- C9: apply_price_updates touches only open positions whose
    condition_id is a key of the price map: every other open position
    keeps its entry (same fields, still open); price-map entries whose id
    is not currently open are ignored (filtering them away yields the same
    result); and when no listed position triggers an exit decision,
    capital_total, capital_disponible and the closed list are unchanged —
    the capital fields move only through closures of positions present in
    the map. -/
theorem c9_apply_updates_frame (s : AutoPortfolio) (tp : ℚ)
    (m : List (String × ℚ × ℚ)) :
    (∀ k, k ∉ m.map Prod.fst →
      alookup (s.apply_price_updates tp m).positions k
        = alookup s.positions k) ∧
    (s.apply_price_updates tp
        (m.filter (fun e => (alookup s.positions e.1).isSome))
      = s.apply_price_updates tp m) ∧
    ((∀ e ∈ m, ∀ p, alookup s.positions e.1 = some p →
        exitDecision tp p e.2.1 e.2.2 = none) →
      (s.apply_price_updates tp m).capital_total = s.capital_total ∧
      (s.apply_price_updates tp m).capital_disponible
          = s.capital_disponible ∧
      (s.apply_price_updates tp m).closed_positions = s.closed_positions) := by
  refine ⟨?_, ?_, ?_⟩
  · intro k hk
    have hnot : k ∉ (applyLoop tp s.positions m).2.map Prod.fst := by
      intro hmem
      obtain ⟨e, he, hek⟩ := List.mem_map.1 hmem
      exact hk (hek ▸ applyLoop_toClose_mem tp s.positions m e he)
    simp only [AutoPortfolio.apply_price_updates]
    rw [foldClose_alookup _ _ _ hnot]
    exact applyLoop_positions_alookup tp s.positions m k hk
  · simp only [AutoPortfolio.apply_price_updates]
    rw [applyLoop_filter tp s.positions m s.positions (fun k => rfl)]
  · intro hdec
    have h0 : (applyLoop tp s.positions m).2 = [] :=
      applyLoop_noclose tp s.positions m s.positions (fun k => rfl) hdec
    simp [AutoPortfolio.apply_price_updates, h0]

def posC9 : Position :=
  { condition_id := "a", question := "q", city := "nyc", entry_yes := 8/100,
    current_yes := 8/100, allocated := 10, tokens := 125,
    take_profit := 15/100, status := .OPEN, pnl := 0, resolution := "" }

def sC9 : AutoPortfolio :=
  { capital_inicial := 100, capital_total := 100, capital_disponible := 90,
    positions := [("a", posC9)], closed_positions := [] }

def m9 : List (String × ℚ × ℚ) := [("b", 1/2, 1/2)]

/-- C9 witness: a price map naming only the non-open id b leaves the open
    position a and the capital fields untouched. -/
theorem c9_apply_updates_frame_witness :
    alookup (sC9.apply_price_updates TAKE_PROFIT_YES m9).positions "a"
      = alookup sC9.positions "a" ∧
    (sC9.apply_price_updates TAKE_PROFIT_YES m9).capital_total
      = sC9.capital_total := by
  have h := c9_apply_updates_frame sC9 TAKE_PROFIT_YES m9
  refine ⟨h.1 "a" ?_, (h.2.2 ?_).1⟩
  · simp [m9]
  · intro e he p hp
    simp only [m9, List.mem_singleton] at he
    subst he
    simp [sC9, posC9, alookup] at hp
